import Mathlib

/-!
Verification of the SrtTrans subtitle-translation pipeline.

This file gives a shallow embedding of the two source files of the repository:

  * src/endpoint/endpoint.py — the OpenAITranslator class: the per-text retry
    loop `translate_text` (lines 34-108) and the bounded-concurrency batch
    dispatcher `translate_batch` (lines 110-149);
  * src/main.py — the SrtParser class: SRT parsing (`parse_file`, lines 36-89),
    the history-reuse and merge logic (`translate_entries`, lines 91-151) and
    the merged save format (`save_translated_srt`, lines 153-172).

Network behaviour is abstracted by an attempt oracle (one `Except` value per
HTTP attempt) and the per-task behaviour of the dispatcher by a task oracle;
everything else is translated directly from the Python source.  Python floats
that only ever hold small timestamp arithmetic are modelled as rationals,
exceptions as `Except`/`Option`, and the semaphore protocol of
`translate_batch` as an explicit transition system over task phases.

The Python string primitives used by the source (`strip`, `split`, `replace`,
`join`, `int()`) are modelled by structurally recursive functions over the
character data of a string, so that every definition evaluates by kernel
reduction on concrete inputs; Python's stable `list.sort` is modelled by a
stable insertion sort (stable sorting is unique, so this agrees with any
stable sort implementation).
-/

namespace SrtTrans

/-! ## Python string primitives -/

/-- The ASCII whitespace characters removed by Python's `str.strip()`. -/
def pySpace (c : Char) : Bool :=
  c = ' ' || c = '\t' || c = '\n' || c = '\x0d' || c = '\x0b' || c = '\x0c'

/-- Python `str.strip()`: remove leading and trailing whitespace. -/
def pyStrip (s : String) : String :=
  ⟨((s.data.dropWhile pySpace).reverse.dropWhile pySpace).reverse⟩

/-- Worker for `pySplit`, structurally recursive on a fuel bound on the number
of characters still to scan: split at every non-overlapping occurrence of the
(nonempty) separator, left to right. -/
def splitFuel (sep : List Char) : Nat → List Char → List Char → List (List Char)
  | 0, _, acc => [acc.reverse]
  | fuel + 1, l, acc =>
    match l with
    | [] => [acc.reverse]
    | c :: rest =>
      if sep.isPrefixOf l then acc.reverse :: splitFuel sep fuel (l.drop sep.length) []
      else splitFuel sep fuel rest (c :: acc)

/-- Python `s.split(sep)` for a nonempty separator. -/
def pySplit (s : String) (sep : String) : List String :=
  (splitFuel sep.data s.data.length s.data []).map fun cs => ⟨cs⟩

/-- Python `s.replace(a, b)` for single-character `a` and `b` (the only use in
the source is `replace(',', '.')`). -/
def replaceChar (s : String) (a b : Char) : String :=
  ⟨s.data.map fun c => if c = a then b else c⟩

/-- Python `sep.join(parts)`. -/
def joinSep (sep : String) : List String → String
  | [] => ""
  | [x] => x
  | x :: xs => x ++ sep ++ joinSep sep xs

/-- Value of a nonempty all-digit character list, `none` on any non-digit. -/
def digitsVal (l : List Char) : Option Nat :=
  l.foldl
    (fun acc c =>
      acc.bind fun n => if c.isDigit then some (10 * n + (c.toNat - 48)) else none)
    (some 0)

/-- Python `int(s)` restricted to the literals occurring in SRT numeric lines:
an optional minus sign followed by at least one digit. -/
def pyToInt? (s : String) : Option Int :=
  match s.data with
  | '-' :: rest =>
    if rest.isEmpty then none else (digitsVal rest).map fun n => -(n : Int)
  | l => if l.isEmpty then none else (digitsVal l).map fun n => (n : Int)

/-- Python `int(s)` for nonnegative literals (digit runs). -/
def pyToNat? (s : String) : Option Nat :=
  if s.data.isEmpty then none else digitsVal s.data

/-! ## Stable sorting (Python's `list.sort` / `sorted` are stable) -/

/-- Insert an element after every already-placed element whose key is less than
or equal to its key: the insertion step of a stable insertion sort. -/
def insertSorted (le : α → α → Bool) (x : α) : List α → List α
  | [] => [x]
  | y :: ys => if le y x then y :: insertSorted le x ys else x :: y :: ys

/-- Stable sort by the Boolean preorder `le`: Python's `list.sort(key=...)` and
`sorted(..., key=...)`. -/
def stableSort (le : α → α → Bool) (l : List α) : List α :=
  l.foldl (fun acc x => insertSorted le x acc) []

/-! ## Translation client (src/endpoint/endpoint.py, OpenAITranslator.translate_text) -/

/-- Outcome of one HTTP attempt inside the `try` block of `translate_text`
(src/endpoint/endpoint.py lines 54-90): `Except.ok content` models a response that
passes `raise_for_status`, carries no "error" field and yields the raw string
`choices[0].message.content`; `Except.error ()` models any failure caught by the
two handlers at lines 92-108 (an `asyncio.TimeoutError`, a transport error, the
explicit `Exception` raised on an "error" field in the body, or a missing field). -/
abbrev Attempt := Except Unit String

/-- The `while retry_count <= max_retries` loop of `translate_text`
(src/endpoint/endpoint.py lines 50-108), started at a given `retryCount`.
Returns the string the function returns together with the list of arguments
passed to `asyncio.sleep` (lines 96 and 105), in order: a successful attempt
returns the content stripped of surrounding whitespace (line 87); a failed
attempt increments the counter and, if `retry_count <= max_retries` still
holds, sleeps `retry_delay * retry_count` and retries, otherwise returns the
original `text` unchanged (lines 99 and 108). -/
def translateTextGo (text : String) (attempts : Nat → Attempt)
    (maxRetries : Nat) (retryDelay : ℚ) (retryCount : Nat) : String × List ℚ :=
  match attempts retryCount with
  | .ok content => (pyStrip content, [])
  | .error _ =>
    if _h : retryCount + 1 ≤ maxRetries then
      let rest := translateTextGo text attempts maxRetries retryDelay (retryCount + 1)
      (rest.1, retryDelay * ((retryCount : ℚ) + 1) :: rest.2)
    else (text, [])
termination_by maxRetries + 1 - retryCount
decreasing_by omega

/-- `OpenAITranslator.translate_text` (src/endpoint/endpoint.py lines 34-108):
the string returned for one text under a given attempt oracle. -/
def translate_text (text : String) (attempts : Nat → Attempt)
    (maxRetries : Nat) (retryDelay : ℚ) : String :=
  (translateTextGo text attempts maxRetries retryDelay 0).1

/-- The back-off sleeps performed by one run of `translate_text`, in order:
the element at 0-based position r-1 is the argument of the `asyncio.sleep`
call made before retry attempt r. -/
def translateSleeps (text : String) (attempts : Nat → Attempt)
    (maxRetries : Nat) (retryDelay : ℚ) : List ℚ :=
  (translateTextGo text attempts maxRetries retryDelay 0).2

/-! ## Bounded dispatcher (src/endpoint/endpoint.py, OpenAITranslator.translate_batch)

`taskRun i` abstracts the body of `translate_with_semaphore` (lines 125-129) for
the i-th text: `.ok s` means the coroutine ran to completion and returned the
pair `(i, s)` with `s` the value of `translate_text` for that text; `.error ()`
means an unexpected exception escaped the coroutine (anything outside
`translate_text`'s own handling), which `asyncio.gather(..., return_exceptions=True)`
surfaces as an exception object at that task's position. -/

/-- The value of `asyncio.gather(*tasks, return_exceptions=True)` (line 135):
one entry per task, in task-creation order regardless of completion order,
each entry either the task's `(index, result)` pair or its escaped exception. -/
def gatherResults (texts : List String) (taskRun : Nat → Except Unit String) :
    List (Except Unit (Nat × String)) :=
  (List.range texts.length).map fun i => (taskRun i).map fun s => (i, s)

/-- `processed_results` (src/endpoint/endpoint.py lines 139-145): walk the gather
output with `enumerate`; an exception at position i is replaced by the pair
`(i, texts[i])` (the unit's original text), other entries are kept as returned. -/
def processedResults (texts : List String) (taskRun : Nat → Except Unit String) :
    List (Nat × String) :=
  (gatherResults texts taskRun).enum.map fun p =>
    match p.2 with
    | .ok r => r
    | .error _ => (p.1, texts.getD p.1 "")

/-- The sort key of line 148: compare result pairs by their index component. -/
def resultLe (a b : Nat × String) : Bool := decide (a.1 ≤ b.1)

/-- `sorted(processed_results, key=lambda x: x[0])` (line 148). -/
def sortResults (rs : List (Nat × String)) : List (Nat × String) :=
  stableSort resultLe rs

/-- The outcome `translate_batch` delivers for the i-th input text: the value of
its task when the task completed, and the original text when the task's
exception was converted at lines 141-143. -/
def taskOutcome (texts : List String) (taskRun : Nat → Except Unit String)
    (i : Nat) : String :=
  match taskRun i with
  | .ok s => s
  | .error _ => texts.getD i ""

/-- `OpenAITranslator.translate_batch` (src/endpoint/endpoint.py lines 110-149):
gather all per-task results, convert exceptions to original texts, sort by
index, and return the text components. -/
def translate_batch (texts : List String) (taskRun : Nat → Except Unit String) :
    List String :=
  (sortResults (processedResults texts taskRun)).map Prod.snd

/-! ## Semaphore protocol of translate_batch (src/endpoint/endpoint.py lines 121-132)

Each task runs `async with semaphore: await self.translate_text(...)`: it
acquires the counting semaphore created as `asyncio.Semaphore(max_concurrency)`
before issuing its request and releases it when the request (and progress
update) is finished.  The protocol is embedded as a transition system: a task
is admitted only when the semaphore counter is positive. -/

/-- Phase of one `translate_with_semaphore` task: waiting for the semaphore,
holding a slot with its request in flight, or finished (slot released). -/
inductive TaskPhase where
  | notStarted
  | inFlight
  | done
deriving DecidableEq, Repr

/-- State of a batch run: the semaphore counter and the phase of every task. -/
structure DispatchState where
  sem : Nat
  tasks : List TaskPhase
deriving DecidableEq, Repr

/-- Start of a batch with concurrency limit k and n tasks: the semaphore holds
k permits and no task has been admitted. -/
def initState (k n : Nat) : DispatchState :=
  ⟨k, List.replicate n TaskPhase.notStarted⟩

/-- Interleaving semantics of the semaphore protocol: a waiting task may be
admitted only when a permit is available (acquire decrements the counter); a
task whose request is in flight may finish at any time (release increments the
counter).  Completion order is unconstrained. -/
inductive DispatchStep : DispatchState → DispatchState → Prop where
  | acquire (s : DispatchState) (i : Nat) (hi : i < s.tasks.length)
      (hphase : s.tasks.get ⟨i, hi⟩ = TaskPhase.notStarted) (hsem : 0 < s.sem) :
      DispatchStep s ⟨s.sem - 1, s.tasks.set i TaskPhase.inFlight⟩
  | release (s : DispatchState) (i : Nat) (hi : i < s.tasks.length)
      (hphase : s.tasks.get ⟨i, hi⟩ = TaskPhase.inFlight) :
      DispatchStep s ⟨s.sem + 1, s.tasks.set i TaskPhase.done⟩

/-- States reachable during a run of `translate_batch` with `max_concurrency = k`
over n texts. -/
inductive DispatchReachable (k n : Nat) : DispatchState → Prop where
  | init : DispatchReachable k n (initState k n)
  | step {s t : DispatchState} :
      DispatchReachable k n s → DispatchStep s t → DispatchReachable k n t

/-- Number of translation requests concurrently in flight in a state. -/
def inFlightCount (s : DispatchState) : Nat :=
  s.tasks.countP fun p => decide (p = TaskPhase.inFlight)

/-! ## SRT parsing (src/main.py, SrtParser.parse_file) -/

/-- src/main.py lines 11-17: the SubtitleEntry dataclass; `translated_content`
defaults to the empty string. -/
structure SubtitleEntry where
  index : Int
  start_time : String
  end_time : String
  content : String
  translated_content : String := ""
deriving DecidableEq, Repr, Inhabited

/-- Models Python `float()` on the nonnegative decimal literals that occur in the
seconds field of SRT timestamps: digits, optionally followed by a dot and digits. -/
def parseFloat? (s : String) : Option ℚ :=
  match pySplit s "." with
  | [a] => (pyToNat? a).map fun n => (n : ℚ)
  | [a, b] =>
    match pyToNat? a, pyToNat? b with
    | some x, some y => some ((x : ℚ) + (y : ℚ) / (10 : ℚ) ^ b.length)
    | _, _ => none
  | _ => none

/-- `SrtParser.parse_time` (src/main.py lines 25-34): strip the timestamp, turn the
comma into a dot, split on colons and combine hours, minutes and seconds into a
total-seconds value.  The datetime object built from it at line 34 is used only
as a sort key and `datetime.fromtimestamp` is strictly monotone, so the rational
total-seconds value itself serves as the key; `Except.error` models the
ValueError/IndexError raised on malformed input. -/
def parse_time (time_str : String) : Except Unit (String × ℚ) :=
  let t := pyStrip time_str
  match pySplit (replaceChar t ',' '.') ":" with
  | h :: m :: s :: _ =>
    match pyToInt? h, pyToInt? m, parseFloat? s with
    | some hh, some mm, some ss => .ok (t, (hh : ℚ) * 3600 + (mm : ℚ) * 60 + ss)
    | _, _, _ => .error ()
  | _ => .error ()

/-- Body of the block loop of `parse_file` (src/main.py lines 54-78) for one
subtitle block: a block with fewer than three lines is skipped (`ok none`); an
unparsable index line or timestamp line raises (`error`), matching `int(...)`
and the two-element unpacking of `split(' --> ')`; otherwise the entry is built
with the text lines joined by newlines and `translated_content` left at its
empty default, paired with its start-time sort key. -/
def parseBlock (block : String) : Except Unit (Option (ℚ × SubtitleEntry)) :=
  let lines := pySplit (pyStrip block) "\n"
  if lines.length < 3 then .ok none
  else
    match pyToInt? (lines.getD 0 "") with
    | none => .error ()
    | some index =>
      match pySplit (lines.getD 1 "") " --> " with
      | [startRaw, endRaw] =>
        match parse_time startRaw, parse_time endRaw with
        | .ok st, .ok en =>
          .ok (some (st.2,
            { index := index, start_time := st.1, end_time := en.1,
              content := joinSep "\n" (lines.drop 2),
              translated_content := "" }))
        | _, _ => .error ()
      | _ => .error ()

/-- The block loop of `parse_file` over all blocks, in order; the first raising
block aborts the whole parse, skipped blocks contribute nothing. -/
def parseBlocks : List String → Except Unit (List (ℚ × SubtitleEntry))
  | [] => .ok []
  | b :: bs =>
    match parseBlock b with
    | .error e => .error e
    | .ok none => parseBlocks bs
    | .ok (some p) => (parseBlocks bs).map fun rest => p :: rest

/-- `SrtParser.parse_file` (src/main.py lines 36-89) on the text content of the
file: split into blocks on blank lines, parse each block, sort stably by
start-time key (Python's `list.sort` is stable) and renumber the indices from 1
(`enumerate(self.entries, 1)` at line 84). -/
def parse_file (content : String) : Except Unit (List SubtitleEntry) :=
  match parseBlocks (pySplit (pyStrip content) "\n\n") with
  | .error e => .error e
  | .ok pairs =>
    let sorted := stableSort (fun a b => decide (a.1 ≤ b.1)) pairs
    .ok (sorted.enum.map fun p => { p.2.2 with index := (p.1 : Int) + 1 })

/-! ## History cache and merge (src/main.py, SrtParser.translate_entries) -/

/-- Python dict assignment `d[k] = v` on an insertion-ordered dict, modelled on an
association list: an existing binding of k is overwritten in place, a new key
is appended at the end. -/
def dictInsert (m : List (String × String)) (k v : String) :
    List (String × String) :=
  if m.any fun p => p.1 == k then m.map fun p => if p.1 == k then (p.1, v) else p
  else m ++ [(k, v)]

/-- Python dict lookup `m[k]` / `k in m` on the association-list model. -/
def dictLookup (m : List (String × String)) (k : String) : Option String :=
  (m.find? fun p => p.1 == k).map Prod.snd

/-- src/main.py lines 110-115: the history mapping built from the parsed history
entries.  Entries whose `translated_content` is falsy (empty) are skipped; the
key is the entry's stripped content, the value its stripped translated content;
a later entry with the same key overwrites the earlier binding. -/
def buildHistoryMap (hist : List SubtitleEntry) : List (String × String) :=
  hist.foldl
    (fun m e =>
      if e.translated_content == "" then m
      else dictInsert m (pyStrip e.content) (pyStrip e.translated_content)) []

/-- src/main.py lines 105-119: load the history file and build the mapping; any
exception while parsing is caught at lines 117-119 and degrades to the empty
mapping. -/
def loadHistory (content : String) : List (String × String) :=
  match parse_file content with
  | .ok es => buildHistoryMap es
  | .error _ => []

/-- The test at src/main.py line 127: `if history_map and clean_content in
history_map` — the mapping is nonempty and contains the entry's stripped
content. -/
def historyHit (m : List (String × String)) (e : SubtitleEntry) : Bool :=
  !m.isEmpty && (dictLookup m (pyStrip e.content)).isSome

/-- First effect of the loop at src/main.py lines 122-132: every entry whose
stripped content hits the mapping gets `translated_content` set to the mapped
value; all other entries are unchanged. -/
def applyHistory (entries : List SubtitleEntry) (m : List (String × String)) :
    List SubtitleEntry :=
  entries.map fun e =>
    if historyHit m e then
      { e with translated_content := (dictLookup m (pyStrip e.content)).getD "" }
    else e

/-- Second effect of the loop at src/main.py lines 122-132: the
`texts_to_translate` list handed to `translate_batch` collects the raw
(unstripped) content of every non-hit entry, in input order. -/
def textsToTranslate (entries : List SubtitleEntry) (m : List (String × String)) :
    List String :=
  entries.filterMap fun e => if historyHit m e then none else some e.content

/-- The merge loop at src/main.py lines 141-146: walk the entries in order; every
entry with falsy `translated_content` consumes the next element of
`translated_texts` (the counter j); `none` models the IndexError raised by
`translated_texts[j]` when the list runs out; leftover elements of
`translated_texts` are silently ignored. -/
def mergeTranslations : List SubtitleEntry → List String → Option (List SubtitleEntry)
  | [], _ => some []
  | e :: es, ts =>
    if e.translated_content == "" then
      match ts with
      | [] => none
      | t :: ts' =>
        (mergeTranslations es ts').map fun r =>
          { e with translated_content := t } :: r
    else (mergeTranslations es ts).map fun r => e :: r

/-- Number of entries the merge loop will try to fill: those whose
`translated_content` is still falsy. -/
def countUntranslated (entries : List SubtitleEntry) : Nat :=
  entries.countP fun e => e.translated_content == ""

/-- `SrtParser.translate_entries` (src/main.py lines 91-151), over the parsed
input entries, the parsed history entries, and the dispatcher (the behaviour of
`translate_batch` under the run's configuration): build the history mapping,
apply the hits, dispatch the remaining texts and merge the results positionally.
`none` models the run raising (the IndexError of the merge loop); when nothing
is left to translate the dispatcher is never invoked (line 135). -/
def translate_entries (entries hist : List SubtitleEntry)
    (dispatch : List String → List String) : Option (List SubtitleEntry) :=
  let m := buildHistoryMap hist
  let entries1 := applyHistory entries m
  let texts := textsToTranslate entries m
  if texts.isEmpty then some entries1
  else mergeTranslations entries1 (dispatch texts)

/-- `SrtParser.save_translated_srt` with `separate_languages=False`
(src/main.py lines 162-172): one block per entry — index line, timestamp line,
content line, the translated line only when truthy, then the blank separator
line. -/
def saveMergedString (entries : List SubtitleEntry) : String :=
  String.join (entries.map fun e =>
    toString e.index ++ "\n" ++ e.start_time ++ " --> " ++ e.end_time ++ "\n"
      ++ e.content ++ "\n"
      ++ (if e.translated_content == "" then "" else e.translated_content ++ "\n")
      ++ "\n")

/-! ## Properties of the stable sort -/

theorem insertSorted_perm (le : α → α → Bool) (x : α) (l : List α) :
    (insertSorted le x l).Perm (x :: l) := by
  induction l with
  | nil => exact List.Perm.refl _
  | cons y ys ih =>
    simp only [insertSorted]
    split
    · exact (ih.cons y).trans (List.Perm.swap x y ys)
    · exact List.Perm.refl _

theorem stableSort_go_perm (le : α → α → Bool) (l : List α) :
    ∀ acc : List α, (l.foldl (fun a x => insertSorted le x a) acc).Perm (acc ++ l) := by
  induction l with
  | nil => intro acc; simp
  | cons x xs ih =>
    intro acc
    simp only [List.foldl_cons]
    refine (ih (insertSorted le x acc)).trans ?_
    refine ((insertSorted_perm le x acc).append_right xs).trans ?_
    exact List.perm_middle.symm.trans (List.Perm.refl _)

theorem stableSort_perm (le : α → α → Bool) (l : List α) :
    (stableSort le l).Perm l := by
  simpa using stableSort_go_perm le l []

theorem insertSorted_pairwise (le : α → α → Bool)
    (htr : ∀ a b c, le a b = true → le b c = true → le a c = true)
    (hto : ∀ a b, le a b = true ∨ le b a = true)
    (x : α) (l : List α) (hl : l.Pairwise fun a b => le a b = true) :
    (insertSorted le x l).Pairwise fun a b => le a b = true := by
  induction l with
  | nil => simp [insertSorted]
  | cons y ys ih =>
    rw [List.pairwise_cons] at hl
    obtain ⟨hy, hys⟩ := hl
    simp only [insertSorted]
    by_cases h : le y x = true
    · rw [if_pos h]
      rw [List.pairwise_cons]
      constructor
      · intro z hz
        rcases List.mem_cons.mp ((insertSorted_perm le x ys).mem_iff.mp hz) with rfl | hzys
        · exact h
        · exact hy z hzys
      · exact ih hys
    · rw [if_neg h]
      have hxy : le x y = true := (hto x y).resolve_right h
      rw [List.pairwise_cons]
      constructor
      · intro z hz
        rcases List.mem_cons.mp hz with rfl | hzys
        · exact hxy
        · exact htr x y z hxy (hy z hzys)
      · exact List.pairwise_cons.mpr ⟨hy, hys⟩

theorem stableSort_go_pairwise (le : α → α → Bool)
    (htr : ∀ a b c, le a b = true → le b c = true → le a c = true)
    (hto : ∀ a b, le a b = true ∨ le b a = true)
    (l : List α) :
    ∀ acc : List α, acc.Pairwise (fun a b => le a b = true) →
      (l.foldl (fun a x => insertSorted le x a) acc).Pairwise fun a b => le a b = true := by
  induction l with
  | nil => intro acc hacc; simpa using hacc
  | cons x xs ih =>
    intro acc hacc
    simp only [List.foldl_cons]
    exact ih (insertSorted le x acc) (insertSorted_pairwise le htr hto x acc hacc)

theorem stableSort_pairwise (le : α → α → Bool)
    (htr : ∀ a b c, le a b = true → le b c = true → le a c = true)
    (hto : ∀ a b, le a b = true ∨ le b a = true)
    (l : List α) :
    (stableSort le l).Pairwise fun a b => le a b = true :=
  stableSort_go_pairwise le htr hto l [] (List.Pairwise.nil)

/-! ## The dispatcher delivers one outcome per position -/

theorem enum_map_range {β : Type} (n : Nat) (h : Nat → β) :
    ((List.range n).map h).enum = (List.range n).map fun i => (i, h i) := by
  apply List.ext_getElem
  · simp
  · intro i h1 h2
    simp

theorem processedResults_eq (texts : List String) (taskRun : Nat → Except Unit String) :
    processedResults texts taskRun
      = (List.range texts.length).map fun i => (i, taskOutcome texts taskRun i) := by
  unfold processedResults gatherResults
  rw [enum_map_range, List.map_map]
  apply List.map_congr_left
  intro i _
  simp only [Function.comp]
  cases h : taskRun i with
  | ok s => simp [taskOutcome, h, Except.map]
  | error e => simp [taskOutcome, h, Except.map]

theorem resultLe_trans :
    ∀ a b c : Nat × String, resultLe a b = true → resultLe b c = true → resultLe a c = true := by
  intro a b c h1 h2
  simp only [resultLe, decide_eq_true_eq] at *
  omega

theorem resultLe_total : ∀ a b : Nat × String, resultLe a b = true ∨ resultLe b a = true := by
  intro a b
  simp only [resultLe, decide_eq_true_eq]
  omega

theorem sortResults_of_perm (texts : List String) (taskRun : Nat → Except Unit String)
    (res : List (Nat × String)) (h : res.Perm (processedResults texts taskRun)) :
    sortResults res = processedResults texts taskRun := by
  have hperm : (sortResults res).Perm (processedResults texts taskRun) :=
    (stableSort_perm resultLe res).trans h
  have hsorted : (sortResults res).Pairwise fun a b => resultLe a b = true :=
    stableSort_pairwise resultLe resultLe_trans resultLe_total res
  have hmapfst : ((sortResults res).map Prod.fst).Perm (List.range texts.length) := by
    have hm := hperm.map Prod.fst
    have hid : (Prod.fst ∘ fun i : Nat => (i, taskOutcome texts taskRun i)) = id := rfl
    rw [processedResults_eq, List.map_map, hid, List.map_id] at hm
    exact hm
  have hnodup : ((sortResults res).map Prod.fst).Nodup :=
    hmapfst.nodup_iff.mpr (List.nodup_range texts.length)
  have hne : (sortResults res).Pairwise fun a b => a.1 ≠ b.1 :=
    List.pairwise_map.mp hnodup
  have hlt : (sortResults res).Pairwise fun a b : Nat × String => a.1 < b.1 := by
    refine (hsorted.and hne).imp ?_
    intro a b hab
    obtain ⟨h1, h2⟩ := hab
    simp only [resultLe, decide_eq_true_eq] at h1
    omega
  have hplt : (processedResults texts taskRun).Pairwise fun a b : Nat × String => a.1 < b.1 := by
    rw [processedResults_eq]
    refine List.pairwise_map.mpr ?_
    refine (List.pairwise_lt_range _).imp ?_
    intro a b hab
    simpa using hab
  haveI : IsAntisymm (Nat × String) fun a b : Nat × String => a.1 < b.1 :=
    ⟨by intro a b h1 h2; exact absurd (lt_trans h1 h2) (lt_irrefl _)⟩
  exact List.eq_of_perm_of_sorted hperm hlt hplt

theorem translate_batch_eq (texts : List String) (taskRun : Nat → Except Unit String) :
    translate_batch texts taskRun
      = (List.range texts.length).map (taskOutcome texts taskRun) := by
  unfold translate_batch
  rw [sortResults_of_perm texts taskRun _ (List.Perm.refl _), processedResults_eq, List.map_map]
  simp [Function.comp]

theorem getD_map_range {β : Type} (n i : Nat) (g : Nat → β) (d : β) (h : i < n) :
    ((List.range n).map g).getD i d = g i := by
  rw [List.getD_eq_getElem?_getD, List.getElem?_eq_getElem (by simpa using h)]
  simp

/-- C1: for every batch of N texts and every per-task behaviour, and for any
completion order (any permutation of the processed result pairs), the sort by
position key produces exactly one result per input position: the output list
has length N, its position keys are exactly 0,…,N-1 with no duplicates, it is
the list translate_batch returns, and its i-th element is the outcome for the
i-th input text. -/
theorem translate_batch_returns_all_positions (texts : List String)
    (taskRun : Nat → Except Unit String) (res : List (Nat × String))
    (hres : res.Perm (processedResults texts taskRun)) :
    ((sortResults res).map Prod.snd).length = texts.length ∧
    (sortResults res).map Prod.fst = List.range texts.length ∧
    (sortResults res).map Prod.snd = translate_batch texts taskRun ∧
    ∀ i, i < texts.length →
      ((sortResults res).map Prod.snd).getD i "" = taskOutcome texts taskRun i := by
  have hs := sortResults_of_perm texts taskRun res hres
  have hmap : (sortResults res).map Prod.snd = translate_batch texts taskRun := by
    rw [hs]
    unfold translate_batch
    rw [sortResults_of_perm texts taskRun _ (List.Perm.refl _)]
  refine ⟨?_, ?_, hmap, ?_⟩
  · rw [hmap, translate_batch_eq]
    simp
  · rw [hs, processedResults_eq, List.map_map]
    have hid : (Prod.fst ∘ fun i : Nat => (i, taskOutcome texts taskRun i)) = id := rfl
    rw [hid, List.map_id]
  · intro i hi
    rw [hmap, translate_batch_eq]
    exact getD_map_range texts.length i (taskOutcome texts taskRun) "" hi

/-- Witness for C1: a concrete two-text batch whose result pairs arrive in
reversed completion order. -/
theorem translate_batch_returns_all_positions_witness :
    (sortResults [(1, "y"), (0, "x")]).map Prod.fst = List.range 2 ∧
    ((sortResults [(1, "y"), (0, "x")]).map Prod.snd).getD 1 ""
      = taskOutcome ["a", "b"] (fun i => if i = 0 then Except.ok "x" else Except.ok "y") 1 := by
  have hconc : processedResults ["a", "b"]
      (fun i => if i = 0 then Except.ok "x" else Except.ok "y") = [(0, "x"), (1, "y")] := by
    decide
  have hperm : ([(1, "y"), (0, "x")] : List (Nat × String)).Perm
      (processedResults ["a", "b"] fun i => if i = 0 then Except.ok "x" else Except.ok "y") := by
    rw [hconc]
    exact List.Perm.swap _ _ _
  have main := translate_batch_returns_all_positions ["a", "b"]
    (fun i => if i = 0 then Except.ok "x" else Except.ok "y") [(1, "y"), (0, "x")] hperm
  exact ⟨main.2.1, main.2.2.2 1 (by decide)⟩

/-- C7: a task whose coroutine raises an unexpected error still yields an
outcome at its own position carrying that unit's original input text, every
other position's outcome is what it would have been without that failure, and
the failure never propagates: translate_batch still returns a full batch. -/
theorem translate_batch_isolates_failure (texts : List String)
    (f g : Nat → Except Unit String) (i : Nat) (hi : i < texts.length)
    (hf : f i = Except.error ()) (hg : ∀ j, j ≠ i → g j = f j) :
    (translate_batch texts f).length = texts.length ∧
    (translate_batch texts f).getD i "" = texts.getD i "" ∧
    ∀ j, j < texts.length → j ≠ i →
      (translate_batch texts f).getD j "" = (translate_batch texts g).getD j "" := by
  rw [translate_batch_eq texts f, translate_batch_eq texts g]
  refine ⟨by simp, ?_, ?_⟩
  · rw [getD_map_range texts.length i (taskOutcome texts f) "" hi]
    simp [taskOutcome, hf]
  · intro j hj hji
    rw [getD_map_range texts.length j (taskOutcome texts f) "" hj,
      getD_map_range texts.length j (taskOutcome texts g) "" hj]
    simp [taskOutcome, hg j hji]

/-- Witness for C7: a concrete two-text batch in which the first task raises an
unexpected error. -/
theorem translate_batch_isolates_failure_witness :
    (translate_batch ["a", "b"] fun j => if j = 0 then Except.error () else Except.ok "B").getD 0 ""
      = "a" ∧
    (translate_batch ["a", "b"] fun j => if j = 0 then Except.error () else Except.ok "B").getD 1 ""
      = (translate_batch ["a", "b"] fun j => if j = 0 then Except.ok "A" else Except.ok "B").getD 1 "" := by
  have main := translate_batch_isolates_failure ["a", "b"]
    (fun j => if j = 0 then Except.error () else Except.ok "B")
    (fun j => if j = 0 then Except.ok "A" else Except.ok "B") 0 (by decide) rfl
    (fun j hj => by
      cases j with
      | zero => exact absurd rfl hj
      | succ n => rfl)
  exact ⟨main.2.1, main.2.2 1 (by decide) (by decide)⟩

/-! ## Retry loop of the translation client -/

theorem translateTextGo_error_step (text : String) (attempts : Nat → Attempt)
    (maxRetries : Nat) (d : ℚ) (rc : Nat) (herr : attempts rc = Except.error ())
    (h : rc + 1 ≤ maxRetries) :
    translateTextGo text attempts maxRetries d rc
      = ((translateTextGo text attempts maxRetries d (rc + 1)).1,
        d * ((rc : ℚ) + 1) :: (translateTextGo text attempts maxRetries d (rc + 1)).2) := by
  rw [translateTextGo, herr]
  simp only [dif_pos h]

theorem translateTextGo_error_last (text : String) (attempts : Nat → Attempt)
    (maxRetries : Nat) (d : ℚ) (rc : Nat) (herr : attempts rc = Except.error ())
    (h : ¬ rc + 1 ≤ maxRetries) :
    translateTextGo text attempts maxRetries d rc = (text, []) := by
  rw [translateTextGo, herr]
  simp only [dif_neg h]

theorem translateTextGo_fst_all_fail (text : String) (attempts : Nat → Attempt)
    (maxRetries : Nat) (d : ℚ) :
    ∀ fuel rc, maxRetries + 1 - rc = fuel → rc ≤ maxRetries →
      (∀ r, rc ≤ r → r ≤ maxRetries → attempts r = Except.error ()) →
      (translateTextGo text attempts maxRetries d rc).1 = text := by
  intro fuel
  induction fuel with
  | zero => intro rc hd hrc hfail; omega
  | succ fuel ih =>
    intro rc hd hrc hfail
    by_cases h : rc + 1 ≤ maxRetries
    · rw [translateTextGo_error_step text attempts maxRetries d rc (hfail rc le_rfl hrc) h]
      exact ih (rc + 1) (by omega) h (fun r h1 h2 => hfail r (by omega) h2)
    · rw [translateTextGo_error_last text attempts maxRetries d rc (hfail rc le_rfl hrc) h]

/-- C3: `translate_text` is total — it always returns a string — and when every
one of the maxRetries+1 attempts fails transiently it returns the original
input text unchanged (not stripped, not modified). -/
theorem translate_text_exhausted_returns_original (text : String)
    (attempts : Nat → Attempt) (maxRetries : Nat) (d : ℚ)
    (hfail : ∀ r, r ≤ maxRetries → attempts r = Except.error ()) :
    translate_text text attempts maxRetries d = text :=
  translateTextGo_fst_all_fail text attempts maxRetries d (maxRetries + 1) 0 (by omega)
    (Nat.zero_le _) (fun r _ h2 => hfail r h2)

/-- Witness for C3: a text with surrounding whitespace survives unchanged when
all four attempts (maxRetries = 3) fail. -/
theorem translate_text_exhausted_returns_original_witness :
    translate_text "  Hello  " (fun _ => Except.error ()) 3 2 = "  Hello  " :=
  translate_text_exhausted_returns_original "  Hello  " (fun _ => Except.error ()) 3 2
    (fun _ _ => rfl)

theorem translateTextGo_snd_get (text : String) (attempts : Nat → Attempt)
    (maxRetries : Nat) (d : ℚ) :
    ∀ j rc t, (∀ k, rc ≤ k → k < rc + j → attempts k = Except.error ()) →
      rc + j ≤ maxRetries → t < j →
      ((translateTextGo text attempts maxRetries d rc).2).get? t
        = some (d * ((rc : ℚ) + (t : ℚ) + 1)) := by
  intro j
  induction j with
  | zero => intro rc t _ _ ht; omega
  | succ j ih =>
    intro rc t hfail hle ht
    have herr : attempts rc = Except.error () := hfail rc le_rfl (by omega)
    have h1 : rc + 1 ≤ maxRetries := by omega
    rw [translateTextGo_error_step text attempts maxRetries d rc herr h1]
    cases t with
    | zero =>
      simp only [List.get?]
      congr 1
      push_cast
      ring
    | succ t' =>
      simp only [List.get?]
      rw [ih (rc + 1) t' (fun k hk1 hk2 => hfail k (by omega) (by omega)) (by omega) (by omega)]
      congr 1
      push_cast
      ring

/-- C6: for a unit that fails transiently on every attempt before retry attempt
r and still has attempts remaining (1 ≤ r ≤ maxRetries), the sleep performed
before retry attempt r equals retryDelay * r — linear back-off keyed by the
attempt count. -/
theorem backoff_delay_linear (text : String) (attempts : Nat → Attempt)
    (maxRetries r : Nat) (d : ℚ) (hr1 : 1 ≤ r) (hr2 : r ≤ maxRetries)
    (hfail : ∀ k, k < r → attempts k = Except.error ()) :
    (translateSleeps text attempts maxRetries d).get? (r - 1) = some (d * (r : ℚ)) := by
  have hmain := translateTextGo_snd_get text attempts maxRetries d r 0 (r - 1)
    (fun k _ hk2 => hfail k (by omega)) (by omega) (by omega)
  rw [translateSleeps, hmain]
  congr 1
  rw [Nat.cast_sub hr1]
  push_cast
  ring

/-- Witness for C6: with retryDelay = 2 and all attempts failing, the sleep
before the second retry is 2 * 2 = 4. -/
theorem backoff_delay_linear_witness :
    (translateSleeps "t" (fun _ => Except.error ()) 3 2).get? 1 = some 4 := by
  have h := backoff_delay_linear "t" (fun _ => Except.error ()) 3 2 2 (by omega) (by omega)
    (fun _ _ => rfl)
  rw [h]
  norm_num

/-! ## The semaphore bound of the dispatcher -/

theorem countP_set_add {α : Type} (p : α → Bool) :
    ∀ (l : List α) (i : Nat) (x : α) (hi : i < l.length),
      (l.set i x).countP p + (if p (l.get ⟨i, hi⟩) then 1 else 0)
        = l.countP p + (if p x then 1 else 0) := by
  intro l
  induction l with
  | nil => intro i x hi; simp at hi
  | cons a as ih =>
    intro i x hi
    cases i with
    | zero =>
      simp only [List.set, List.countP_cons, List.get]
      omega
    | succ i' =>
      simp only [List.set, List.countP_cons, List.get]
      have hh := ih i' x (by simpa using hi)
      omega

theorem countP_replicate_false {α : Type} (p : α → Bool) (a : α) (n : Nat)
    (h : p a = false) : (List.replicate n a).countP p = 0 := by
  induction n with
  | zero => rfl
  | succ n ih => simp [List.replicate_succ, List.countP_cons, h, ih]

theorem dispatch_invariant (k n : Nat) (s : DispatchState)
    (h : DispatchReachable k n s) : inFlightCount s + s.sem = k := by
  induction h with
  | init =>
    simp [inFlightCount, initState, countP_replicate_false]
  | step hr hstep ih =>
    rename_i s t
    cases hstep with
    | acquire i hi hphase hsem =>
      have hc := countP_set_add (fun p => decide (p = TaskPhase.inFlight)) s.tasks i
        TaskPhase.inFlight hi
      rw [hphase] at hc
      simp only [decide_eq_true_eq] at hc
      simp only [inFlightCount] at *
      simp at hc
      omega
    | release i hi hphase =>
      have hc := countP_set_add (fun p => decide (p = TaskPhase.inFlight)) s.tasks i
        TaskPhase.done hi
      rw [hphase] at hc
      simp only [inFlightCount] at *
      simp at hc
      omega

/-- C2: in every state reachable during a run of translate_batch with
max_concurrency = k, the number of translation requests concurrently in flight
never exceeds k; a waiting unit is admitted only when the semaphore holds a
permit. -/
theorem inflight_never_exceeds_limit (k n : Nat) (s : DispatchState)
    (h : DispatchReachable k n s) : inFlightCount s ≤ k := by
  have hinv := dispatch_invariant k n s h
  omega

/-- Witness for C2: with limit 2 and a batch of 3 tasks, the state reached
after two admissions satisfies the bound. -/
theorem inflight_never_exceeds_limit_witness :
    inFlightCount ⟨0, [TaskPhase.inFlight, TaskPhase.inFlight, TaskPhase.notStarted]⟩ ≤ 2 := by
  apply inflight_never_exceeds_limit 2 3
  have h0 : DispatchReachable 2 3 (initState 2 3) := DispatchReachable.init
  have h1 : DispatchReachable 2 3
      ⟨1, [TaskPhase.inFlight, TaskPhase.notStarted, TaskPhase.notStarted]⟩ :=
    DispatchReachable.step h0
      (DispatchStep.acquire (initState 2 3) 0 (by decide) (by decide) (by decide))
  exact DispatchReachable.step h1
    (DispatchStep.acquire ⟨1, [TaskPhase.inFlight, TaskPhase.notStarted, TaskPhase.notStarted]⟩ 1
      (by decide) (by decide) (by decide))

/-! ## The history dictionary -/

theorem dictLookup_nil (k : String) : dictLookup [] k = none := rfl

theorem dictLookup_cons (p : String × String) (m : List (String × String)) (k : String) :
    dictLookup (p :: m) k = if p.1 == k then some p.2 else dictLookup m k := by
  unfold dictLookup
  by_cases h : (p.1 == k) = true
  · rw [if_pos h, @List.find?_cons_of_pos (String × String) (fun q => q.1 == k) p m h]
    rfl
  · rw [if_neg h, @List.find?_cons_of_neg (String × String) (fun q => q.1 == k) p m h]

theorem fst_replace (c : String × String) (k v : String) :
    ((if c.1 == k then (c.1, v) else c) : String × String).1 = c.1 := by
  split <;> rfl

theorem snd_replace_ne (c : String × String) (k v : String) (h : (c.1 == k) = false) :
    ((if c.1 == k then (c.1, v) else c) : String × String).2 = c.2 := by
  rw [if_neg (by simp [h])]

theorem dictLookup_map_replace_ne (tl : List (String × String)) (k v k' : String)
    (hne : k' ≠ k) :
    dictLookup (tl.map fun p => if p.1 == k then (p.1, v) else p) k' = dictLookup tl k' := by
  induction tl with
  | nil => rfl
  | cons c tt ih =>
    rw [List.map_cons, dictLookup_cons, dictLookup_cons, fst_replace]
    by_cases h : c.1 = k'
    · have hck : (c.1 == k) = false := by
        refine beq_eq_false_iff_ne.mpr ?_
        intro hc
        exact hne (by rw [← h]; exact hc)
      rw [if_pos (show (c.1 == k') = true by simp [h]),
        if_pos (show (c.1 == k') = true by simp [h]), snd_replace_ne c k v hck]
    · rw [if_neg (show ¬(c.1 == k') = true by simp [h]),
        if_neg (show ¬(c.1 == k') = true by simp [h])]
      exact ih

theorem dictInsert_cons_ne (a : String × String) (tl : List (String × String)) (k v : String)
    (h : (a.1 == k) = false) :
    dictInsert (a :: tl) k v = a :: dictInsert tl k v := by
  unfold dictInsert
  rw [List.any_cons, h, Bool.false_or, List.map_cons,
    if_neg (show ¬(a.1 == k) = true by simp [h])]
  by_cases ht : (tl.any fun p => p.1 == k) = true
  · rw [if_pos ht, if_pos ht]
  · rw [if_neg ht, if_neg ht, List.cons_append]

theorem dictLookup_dictInsert (m : List (String × String)) (k v k' : String) :
    dictLookup (dictInsert m k v) k' = if k' == k then some v else dictLookup m k' := by
  induction m with
  | nil =>
    unfold dictInsert
    rw [if_neg (by simp), List.nil_append, dictLookup_cons, dictLookup_nil]
    by_cases h : k' = k
    · rw [if_pos (show (k == k') = true by simp [h]), if_pos (show (k' == k) = true by simp [h])]
    · rw [if_neg (show ¬(k == k') = true by simp; exact fun hh => h hh.symm),
        if_neg (show ¬(k' == k) = true by simp [h])]
  | cons a tl ih =>
    by_cases hak : a.1 = k
    · unfold dictInsert
      rw [if_pos (show ((a :: tl).any fun p => p.1 == k) = true by simp [hak]),
        List.map_cons, dictLookup_cons, fst_replace]
      by_cases h : k' = k
      · rw [if_pos (show (a.1 == k') = true by simp [hak, h]),
          if_pos (show (k' == k) = true by simp [h]),
          if_pos (show (a.1 == k) = true by simp [hak])]
      · rw [if_neg (show ¬(a.1 == k') = true by simp [hak]; exact fun hh => h hh.symm),
          if_neg (show ¬(k' == k) = true by simp [h]),
          dictLookup_map_replace_ne tl k v k' h, dictLookup_cons,
          if_neg (show ¬(a.1 == k') = true by simp [hak]; exact fun hh => h hh.symm)]
    · rw [dictInsert_cons_ne a tl k v (beq_eq_false_iff_ne.mpr hak), dictLookup_cons, ih,
        dictLookup_cons]
      by_cases hak' : a.1 = k'
      · have hk'k : ¬(k' == k) = true := by
          simp only [beq_iff_eq]
          intro hh
          exact hak (by rw [hak']; exact hh)
        rw [if_pos (show (a.1 == k') = true by simp [hak']), if_neg hk'k,
          if_pos (show (a.1 == k') = true by simp [hak'])]
      · by_cases h : k' = k
        · rw [if_neg (show ¬(a.1 == k') = true by simp [hak']),
            if_pos (show (k' == k) = true by simp [h]),
            if_pos (show (k' == k) = true by simp [h])]
        · rw [if_neg (show ¬(a.1 == k') = true by simp [hak']),
            if_neg (show ¬(k' == k) = true by simp [h]),
            if_neg (show ¬(k' == k) = true by simp [h]),
            if_neg (show ¬(a.1 == k') = true by simp [hak'])]

/-- C9: the history mapping binds each normalized key to the translation of the
last-seen matching history entry: looking up k returns exactly the stripped
translated content of the last entry whose translated_content is nonempty and
whose stripped content equals k. -/
theorem buildHistoryMap_last_entry_wins (hist : List SubtitleEntry) (k : String) :
    dictLookup (buildHistoryMap hist) k
      = ((hist.filter fun e =>
            e.translated_content != "" && (pyStrip e.content == k)).getLast?).map
          fun e => pyStrip e.translated_content := by
  have main : ∀ (es : List SubtitleEntry) (m : List (String × String)),
      dictLookup (es.foldl (fun acc e =>
          if e.translated_content == "" then acc
          else dictInsert acc (pyStrip e.content) (pyStrip e.translated_content)) m) k
        = ((es.filter fun e =>
              e.translated_content != "" && (pyStrip e.content == k)).getLast?).elim
            (dictLookup m k) (fun e => some (pyStrip e.translated_content)) := by
    intro es
    induction es with
    | nil => intro m; rfl
    | cons e es ih =>
      intro m
      rw [List.foldl_cons, ih]
      by_cases htc : e.translated_content = ""
      · rw [List.filter_cons_of_neg (by simp [htc]), if_pos (by simp [htc])]
      · rw [if_neg (show ¬(e.translated_content == "") = true by simp [htc])]
        by_cases hkey : pyStrip e.content = k
        · rw [List.filter_cons_of_pos (by simp [htc, hkey])]
          cases hrest : (es.filter fun e =>
              e.translated_content != "" && (pyStrip e.content == k)).getLast? with
          | some e' =>
            cases hfe : (es.filter fun e =>
                e.translated_content != "" && (pyStrip e.content == k)) with
            | nil =>
              rw [hfe] at hrest
              exact absurd hrest (by simp)
            | cons x xs =>
              rw [hfe] at hrest
              rw [List.getLast?_cons_cons, hrest]
              simp
          | none =>
            cases hfe : (es.filter fun e =>
                e.translated_content != "" && (pyStrip e.content == k)) with
            | cons x xs =>
              rw [hfe] at hrest
              simp at hrest
            | nil =>
              rw [List.getLast?_singleton, Option.elim_none, Option.elim_some,
                dictLookup_dictInsert,
                if_pos (show (k == pyStrip e.content) = true by simp [hkey])]
        · rw [List.filter_cons_of_neg (by simp [hkey]), dictLookup_dictInsert,
            if_neg (show ¬(k == pyStrip e.content) = true by
              simp only [beq_iff_eq]
              exact fun hh => hkey hh.symm)]
  have h0 := main hist []
  unfold buildHistoryMap
  rw [h0]
  cases (hist.filter fun e =>
      e.translated_content != "" && (pyStrip e.content == k)).getLast? with
  | some e => rfl
  | none => rfl

/-! ## Entries built by parse_file never carry a translation -/

theorem parseBlock_translated_empty (b : String) (q : ℚ × SubtitleEntry)
    (h : parseBlock b = Except.ok (some q)) : q.2.translated_content = "" := by
  unfold parseBlock at h
  dsimp only [] at h
  split at h
  · simp at h
  · split at h
    · simp at h
    · split at h
      · split at h
        · simp only [Except.ok.injEq, Option.some.injEq] at h
          subst h
          rfl
        · simp at h
      · simp at h

theorem parseBlocks_translated_empty :
    ∀ (bs : List String) (l : List (ℚ × SubtitleEntry)),
      parseBlocks bs = Except.ok l → ∀ q ∈ l, q.2.translated_content = "" := by
  intro bs
  induction bs with
  | nil =>
    intro l h q hq
    simp only [parseBlocks] at h
    cases h
    simp at hq
  | cons b bs ih =>
    intro l h q hq
    simp only [parseBlocks] at h
    cases hb : parseBlock b with
    | error e =>
      rw [hb] at h
      simp at h
    | ok o =>
      rw [hb] at h
      cases o with
      | none => exact ih l h q hq
      | some p =>
        cases hrest : parseBlocks bs with
        | error e =>
          rw [hrest] at h
          simp [Except.map] at h
        | ok rest =>
          rw [hrest] at h
          simp only [Except.map, Except.ok.injEq] at h
          subst h
          rcases List.mem_cons.mp hq with rfl | hmem
          · exact parseBlock_translated_empty b q hb
          · exact ih rest hrest q hmem

theorem parse_file_translated_empty (content : String) (es : List SubtitleEntry)
    (h : parse_file content = Except.ok es) : ∀ e ∈ es, e.translated_content = "" := by
  unfold parse_file at h
  cases hp : parseBlocks (pySplit (pyStrip content) "\n\n") with
  | error err =>
    rw [hp] at h
    simp at h
  | ok pairs =>
    rw [hp] at h
    simp only [Except.ok.injEq] at h
    subst h
    intro e he
    obtain ⟨ip, hip, hue⟩ := List.mem_map.mp he
    obtain ⟨i, p⟩ := ip
    rw [List.enum_eq_zip_range] at hip
    have h2 : p ∈ stableSort (fun a b => decide (a.1 ≤ b.1)) pairs := (List.of_mem_zip hip).2
    have h3 : p ∈ pairs := (stableSort_perm _ _).mem_iff.mp h2
    have h4 : p.2.translated_content = "" := parseBlocks_translated_empty _ pairs hp p h3
    rw [← hue]
    exact h4

theorem buildHistoryMap_all_empty (hist : List SubtitleEntry)
    (h : ∀ e ∈ hist, e.translated_content = "") : buildHistoryMap hist = [] := by
  have main : ∀ (es : List SubtitleEntry) (m : List (String × String)),
      (∀ e ∈ es, e.translated_content = "") →
      es.foldl (fun acc e => if e.translated_content == "" then acc
        else dictInsert acc (pyStrip e.content) (pyStrip e.translated_content)) m = m := by
    intro es
    induction es with
    | nil => intro m _; rfl
    | cons e es ih =>
      intro m hall
      rw [List.foldl_cons, if_pos (by simp [hall e (List.mem_cons_self e es)]),
        ih m (fun x hx => hall x (List.mem_cons_of_mem e hx))]
  exact main hist [] h

/-- C10: every history mapping loaded through parse_file is empty: parse_file
constructs each entry with an empty translated_content, and only entries with a
nonempty translated_content enter the mapping, so history loading along this
path reports zero records and can never produce a cache hit. -/
theorem loadHistory_always_empty (content : String) :
    loadHistory content = [] ∧
    ∀ e : SubtitleEntry, historyHit (loadHistory content) e = false := by
  have h1 : loadHistory content = [] := by
    unfold loadHistory
    cases hp : parse_file content with
    | error err => rfl
    | ok es => exact buildHistoryMap_all_empty es (parse_file_translated_empty content es hp)
  refine ⟨h1, fun e => ?_⟩
  rw [h1]
  rfl

/-! ## The merge loop and the history partition -/

theorem translate_entries_eq (entries hist : List SubtitleEntry)
    (dispatch : List String → List String) :
    translate_entries entries hist dispatch
      = if (textsToTranslate entries (buildHistoryMap hist)).isEmpty
        then some (applyHistory entries (buildHistoryMap hist))
        else mergeTranslations (applyHistory entries (buildHistoryMap hist))
          (dispatch (textsToTranslate entries (buildHistoryMap hist))) := rfl

theorem isSome_opt_map {α β : Type} (f : α → β) (o : Option α) :
    (o.map f).isSome = o.isSome := by
  cases o <;> rfl

theorem countUntranslated_nil : countUntranslated [] = 0 := rfl

theorem countUntranslated_cons (e : SubtitleEntry) (es : List SubtitleEntry) :
    countUntranslated (e :: es)
      = countUntranslated es + (if e.translated_content == "" then 1 else 0) := by
  simp [countUntranslated, List.countP_cons]

/-- C5 amended: the merge applies dispatcher outcomes purely positionally and
performs no index-consistency check: it produces an output exactly when at
least as many outcomes as untranslated entries are supplied — surplus outcomes
(duplicate or extra indices) are silently dropped — and it fails only by
running out of outcomes (an IndexError), never with a designed consistency
error. -/
theorem mergeTranslations_no_consistency_check (es : List SubtitleEntry)
    (ts : List String) :
    (mergeTranslations es ts).isSome = decide (countUntranslated es ≤ ts.length) := by
  induction es generalizing ts with
  | nil => simp [mergeTranslations, countUntranslated]
  | cons e es ih =>
    by_cases h : (e.translated_content == "") = true
    · cases ts with
      | nil =>
        simp only [mergeTranslations, if_pos h, countUntranslated_cons, h, if_true]
        simp
      | cons t ts' =>
        simp only [mergeTranslations, if_pos h, isSome_opt_map, ih ts',
          countUntranslated_cons, h, if_true]
        rw [decide_eq_decide]
        simp only [List.length_cons]
        omega
    · simp only [mergeTranslations, if_neg h, isSome_opt_map, ih ts,
        countUntranslated_cons, if_neg h]
      rw [decide_eq_decide]
      omega

/-- C5 counterexample: a merge over one untranslated entry given two dispatcher
outcomes — an extra, duplicate position in the combined outcome set — silently
produces an output instead of failing with a consistency error. -/
theorem merge_silently_accepts_extra_outcomes :
    mergeTranslations [⟨1, "t1", "t2", "A", ""⟩] ["X", "Y"]
      = some [⟨1, "t1", "t2", "A", "X"⟩] := by decide

/-- C4 is contradicted by the code, evaluated here at the failing input: the
first run translates the single entry "Hello" to "Bonjour" and the merged file
is saved; re-loading that file as history yields an empty mapping (zero
records), and the re-run over the same input dispatches "Hello" to the client
again — 0% cache hits and one client call instead of 100% and zero. -/
theorem roundtrip_produces_no_cache_hits :
    translate_entries [⟨1, "00:00:01,000", "00:00:02,000", "Hello", ""⟩] []
        (fun l => l.map fun _ => "Bonjour")
      = some [⟨1, "00:00:01,000", "00:00:02,000", "Hello", "Bonjour"⟩] ∧
    loadHistory (saveMergedString
        [⟨1, "00:00:01,000", "00:00:02,000", "Hello", "Bonjour"⟩]) = [] ∧
    textsToTranslate [⟨1, "00:00:01,000", "00:00:02,000", "Hello", ""⟩]
        (loadHistory (saveMergedString
          [⟨1, "00:00:01,000", "00:00:02,000", "Hello", "Bonjour"⟩]))
      = ["Hello"] :=
  ⟨by decide, by decide, by decide⟩

/-! ## History hits (claim C8) -/

theorem find?_pred {α : Type} (p : α → Bool) :
    ∀ (l : List α) (a : α), l.find? p = some a → p a = true := by
  intro l
  induction l with
  | nil =>
    intro a h
    simp at h
  | cons x xs ih =>
    intro a h
    by_cases hx : p x = true
    · rw [List.find?_cons_of_pos _ hx] at h
      cases h
      exact hx
    · rw [List.find?_cons_of_neg _ hx] at h
      exact ih a h

theorem dictLookup_mem (m : List (String × String)) (k v : String)
    (h : dictLookup m k = some v) : (k, v) ∈ m := by
  unfold dictLookup at h
  cases hf : m.find? (fun p => p.1 == k) with
  | none =>
    rw [hf] at h
    simp at h
  | some pr =>
    rw [hf] at h
    simp only [Option.map_some', Option.some.injEq] at h
    have hmem := List.mem_of_find?_eq_some hf
    have hpk : (pr.1 == k) = true := find?_pred (fun p => p.1 == k) m pr hf
    have hpr : pr = (k, v) := by
      obtain ⟨a, b⟩ := pr
      simp only [beq_iff_eq] at hpk
      simp only [Prod.mk.injEq]
      exact ⟨hpk, h⟩
    rw [← hpr]
    exact hmem

theorem applyHistory_cons (e : SubtitleEntry) (es : List SubtitleEntry)
    (m : List (String × String)) :
    applyHistory (e :: es) m
      = (if historyHit m e then
          { e with translated_content := (dictLookup m (pyStrip e.content)).getD "" }
        else e) :: applyHistory es m := rfl

theorem textsToTranslate_nil (m : List (String × String)) :
    textsToTranslate [] m = [] := rfl

theorem textsToTranslate_cons (e : SubtitleEntry) (es : List SubtitleEntry)
    (m : List (String × String)) :
    textsToTranslate (e :: es) m
      = if historyHit m e then textsToTranslate es m
        else e.content :: textsToTranslate es m := by
  by_cases hh : historyHit m e = true <;>
    simp [textsToTranslate, List.filterMap_cons, hh]

theorem applyHistory_count (m : List (String × String))
    (hvals : ∀ p ∈ m, p.2 ≠ "") :
    ∀ entries : List SubtitleEntry, (∀ e ∈ entries, e.translated_content = "") →
      countUntranslated (applyHistory entries m) = (textsToTranslate entries m).length := by
  intro entries
  induction entries with
  | nil => intro _; rfl
  | cons e es ih =>
    intro hinit
    have htail := ih fun x hx => hinit x (List.mem_cons_of_mem e hx)
    rw [applyHistory_cons, textsToTranslate_cons, countUntranslated_cons]
    by_cases hh : historyHit m e = true
    · rw [if_pos hh, if_pos hh]
      have hsome : (dictLookup m (pyStrip e.content)).isSome = true := by
        unfold historyHit at hh
        simp only [Bool.and_eq_true] at hh
        exact hh.2
      obtain ⟨v, hv⟩ := Option.isSome_iff_exists.mp hsome
      have hvne : v ≠ "" := hvals _ (dictLookup_mem m _ v hv)
      have hcond : (({ e with
          translated_content := (dictLookup m (pyStrip e.content)).getD "" } :
            SubtitleEntry).translated_content == "") = false := by
        show ((dictLookup m (pyStrip e.content)).getD "" == "") = false
        rw [hv, Option.getD_some]
        exact beq_eq_false_iff_ne.mpr hvne
      rw [hcond]
      simp [htail]
    · rw [if_neg hh, if_neg hh]
      have hcond : (e.translated_content == "") = true := by
        simp [hinit e (List.mem_cons_self e es)]
      rw [hcond]
      simp [htail]

theorem mergeTranslations_success :
    ∀ (es : List SubtitleEntry) (ts : List String),
      countUntranslated es = ts.length →
      ∃ out, mergeTranslations es ts = some out ∧ out.length = es.length ∧
        ∀ j : Nat, (es.getD j default).translated_content ≠ "" →
          out.getD j default = es.getD j default := by
  intro es
  induction es with
  | nil =>
    intro ts h
    exact ⟨[], rfl, rfl, fun j hj => rfl⟩
  | cons e es ih =>
    intro ts h
    rw [countUntranslated_cons] at h
    by_cases he : (e.translated_content == "") = true
    · rw [if_pos he] at h
      cases ts with
      | nil =>
        simp only [List.length_nil] at h
        omega
      | cons t ts' =>
        obtain ⟨out, hout, hlen, hpres⟩ := ih ts' (by simpa using h)
        refine ⟨{ e with translated_content := t } :: out, ?_, by simp [hlen], ?_⟩
        · simp only [mergeTranslations, if_pos he, hout, Option.map_some']
        · intro j hj
          cases j with
          | zero =>
            rw [List.getD_cons_zero] at hj
            exact absurd (by simpa using he) hj
          | succ j' =>
            rw [List.getD_cons_succ, List.getD_cons_succ]
            rw [List.getD_cons_succ] at hj
            exact hpres j' hj
    · rw [if_neg he] at h
      obtain ⟨out, hout, hlen, hpres⟩ := ih ts (by omega)
      refine ⟨e :: out, ?_, by simp [hlen], ?_⟩
      · simp only [mergeTranslations, if_neg he, hout, Option.map_some']
      · intro j hj
        cases j with
        | zero => rfl
        | succ j' =>
          rw [List.getD_cons_succ, List.getD_cons_succ]
          rw [List.getD_cons_succ] at hj
          exact hpres j' hj

theorem applyHistory_getD (entries : List SubtitleEntry) (m : List (String × String))
    (i : Nat) (hi : i < entries.length) :
    (applyHistory entries m).getD i default
      = if historyHit m (entries.getD i default) then
          { entries.getD i default with
            translated_content :=
              (dictLookup m (pyStrip (entries.getD i default).content)).getD "" }
        else entries.getD i default := by
  have hlen : i < (applyHistory entries m).length := by
    simpa [applyHistory] using hi
  rw [List.getD_eq_getElem?_getD, List.getElem?_eq_getElem hlen, Option.getD_some,
    List.getD_eq_getElem?_getD, List.getElem?_eq_getElem hi, Option.getD_some]
  simp [applyHistory]

theorem textsToTranslate_erase_hit (m : List (String × String)) :
    ∀ (l : List SubtitleEntry) (i : Nat), i < l.length →
      historyHit m (l.getD i default) = true →
      textsToTranslate l m = textsToTranslate (l.eraseIdx i) m := by
  intro l
  induction l with
  | nil => intro i hi; simp at hi
  | cons e es ih =>
    intro i hi hhit
    cases i with
    | zero =>
      rw [List.getD_cons_zero] at hhit
      rw [List.eraseIdx_cons_zero, textsToTranslate_cons, if_pos hhit]
    | succ i' =>
      rw [List.getD_cons_succ] at hhit
      rw [List.eraseIdx_cons_succ, textsToTranslate_cons, textsToTranslate_cons,
        ih i' (by simpa using hi) hhit]

/-- C8 amended: a unit whose stripped content is bound, in the loaded history
mapping, to a nonempty translation ends the run with exactly that translation
and is excluded from the dispatched batch (removing it leaves the dispatched
text list unchanged); the proviso that every mapped value is nonempty is
forced by the counterexample below, in which a whitespace-only history
translation is stripped to the empty string.  The hypotheses that the input
entries start untranslated and that the dispatcher is length-preserving hold
on the code's call path (parse_file output and translate_batch respectively). -/
theorem history_hit_uses_cached_translation (entries hist : List SubtitleEntry)
    (dispatch : List String → List String) (i : Nat) (v : String)
    (hinit : ∀ e ∈ entries, e.translated_content = "")
    (hvals : ∀ p ∈ buildHistoryMap hist, p.2 ≠ "")
    (hlen : ∀ l, (dispatch l).length = l.length)
    (hi : i < entries.length)
    (hv : dictLookup (buildHistoryMap hist)
        (pyStrip (entries.getD i default).content) = some v) :
    (∃ out, translate_entries entries hist dispatch = some out ∧
      (out.getD i default).translated_content = v) ∧
    textsToTranslate entries (buildHistoryMap hist)
      = textsToTranslate (entries.eraseIdx i) (buildHistoryMap hist) := by
  have hmne : (buildHistoryMap hist).isEmpty = false := by
    cases hbm : buildHistoryMap hist with
    | nil =>
      rw [hbm] at hv
      simp [dictLookup] at hv
    | cons a tl => rfl
  have hhit : historyHit (buildHistoryMap hist) (entries.getD i default) = true := by
    unfold historyHit
    rw [hmne, hv]
    rfl
  have hgd : (applyHistory entries (buildHistoryMap hist)).getD i default
      = { entries.getD i default with translated_content := v } := by
    rw [applyHistory_getD entries _ i hi, if_pos hhit, hv, Option.getD_some]
  have hvne : v ≠ "" := hvals _ (dictLookup_mem _ _ v hv)
  constructor
  · by_cases htexts : (textsToTranslate entries (buildHistoryMap hist)).isEmpty = true
    · rw [translate_entries_eq, if_pos htexts]
      refine ⟨applyHistory entries (buildHistoryMap hist), rfl, ?_⟩
      rw [hgd]
    · rw [translate_entries_eq, if_neg htexts]
      have hcnt : countUntranslated (applyHistory entries (buildHistoryMap hist))
          = (dispatch (textsToTranslate entries (buildHistoryMap hist))).length := by
        rw [hlen]
        exact applyHistory_count _ hvals entries hinit
      obtain ⟨out, hout, hlenout, hpres⟩ := mergeTranslations_success _ _ hcnt
      refine ⟨out, hout, ?_⟩
      rw [hpres i (by rw [hgd]; simpa using hvne), hgd]
  · exact textsToTranslate_erase_hit _ entries i hi hhit

/-- Witness for the amended C8: a single unit hitting a history mapping that
binds "Hello" to "Bonjour", under the identity dispatcher. -/
theorem history_hit_uses_cached_translation_witness :
    (∃ out, translate_entries [⟨1, "t1", "t2", "Hello", ""⟩]
        [⟨7, "t5", "t6", "Hello", "Bonjour"⟩] (fun l => l) = some out ∧
      (out.getD 0 default).translated_content = "Bonjour") ∧
    textsToTranslate [⟨1, "t1", "t2", "Hello", ""⟩]
        (buildHistoryMap [⟨7, "t5", "t6", "Hello", "Bonjour"⟩])
      = textsToTranslate (List.eraseIdx [⟨1, "t1", "t2", "Hello", ""⟩] 0)
        (buildHistoryMap [⟨7, "t5", "t6", "Hello", "Bonjour"⟩]) :=
  history_hit_uses_cached_translation [⟨1, "t1", "t2", "Hello", ""⟩]
    [⟨7, "t5", "t6", "Hello", "Bonjour"⟩] (fun l => l) 0 "Bonjour"
    (by decide) (by decide) (fun l => rfl) (by decide) (by decide)

/-- C8 counterexample: the loaded history mapping can bind a key to the empty
string (a whitespace-only translated line is truthy but strips to "").  The
unit "Hello" has an entry in the mapping, yet the run produces no final
translated text at all: the hit is treated as untranslated during the merge,
which consumes the sibling's outcome and then raises an IndexError (none). -/
theorem history_hit_empty_value_counterexample :
    dictLookup (buildHistoryMap [⟨1, "t1", "t2", "Hello", " "⟩]) (pyStrip "Hello")
      = some "" ∧
    translate_entries [⟨1, "t1", "t2", "Hello", ""⟩, ⟨2, "t3", "t4", "World", ""⟩]
        [⟨1, "t1", "t2", "Hello", " "⟩] (fun l => l.map fun s => s ++ "!")
      = none :=
  ⟨by decide, by decide⟩

end SrtTrans
